import Mathlib

/-!
# GrainHero-Backend: verification of the specified behaviour

Shallow embedding of the GrainHero farm-management backend (Express +
Mongoose) and proofs of the specification claims.  Database collections
are lists of records, route handlers are pure functions from a request
and a database state to a status code, a response body and the new
database state, and the socket alert fan-out is a function from the
parsed connection path and the database to the pushed message.
-/

namespace GrainHero

/-- A farmhouse document, after `models/Farmhouse.js`.  `oid` stands for
the database identifier `_id`; an unset optional string field is
modelled as `""` (both `undefined` and `""` are falsy in the source's
`filter(Boolean)` and are rejected by the Mongoose required-string
validator, so the two collapse to the same behaviour). -/
structure Farmhouse where
  oid : String
  f_id : String
  name : String
  manager : String
  admin : String
  assistants : List String
  location : String
  deriving Repr, DecidableEq

/-- An alert document, after the fields used by `routes/alerts.js`
(title, category, location, description); `location` is a free-text
string matched by equality against `Farmhouse.location`. -/
structure Alert where
  title : String
  category : String
  location : String
  description : String
  deriving Repr, DecidableEq

/-- The three socket roles accepted by the alert fan-out URL. -/
inductive SocketRole where
  | admin
  | manager
  | assistant
  deriving Repr, DecidableEq

/-- The role-dependent farmhouse query of `getFilteredAlerts` in
`index.js`: `Farmhouse.find({ admin: userId })`,
`Farmhouse.find({ manager: userId })` or
`Farmhouse.find({ assistants: userId })` (array membership). -/
def roleFarmhouses (fdb : List Farmhouse) (role : SocketRole) (userId : String) :
    List Farmhouse :=
  match role with
  | .admin => fdb.filter (fun fh => fh.admin == userId)
  | .manager => fdb.filter (fun fh => fh.manager == userId)
  | .assistant => fdb.filter (fun fh => fh.assistants.contains userId)

/-- `getFilteredAlerts(role, userId)` from `index.js`: query the
role-appropriate farmhouses, return `[]` when there are none, otherwise
collect the truthy (non-empty) locations and keep the alerts whose
location is included in that list. -/
def getFilteredAlerts (fdb : List Farmhouse) (adb : List Alert)
    (role : SocketRole) (userId : String) : List Alert :=
  let farmhouses := roleFarmhouses fdb role userId
  if farmhouses.length == 0 then []
  else
    let farmhouseLocations := (farmhouses.map (fun fh => fh.location)).filter (fun l => l != "")
    adb.filter (fun a => farmhouseLocations.contains a.location)

/-- The role-appropriate ownership test, written from the claim text. -/
def ownsFarmhouse (fh : Farmhouse) (role : SocketRole) (userId : String) : Bool :=
  match role with
  | .admin => fh.admin == userId
  | .manager => fh.manager == userId
  | .assistant => fh.assistants.contains userId

/-- Reference alert set written from the specification's words: the
alerts (out of the whole collection) whose location string is among the
non-empty locations of the farmhouses owned by the user. -/
def specAlertSet (fdb : List Farmhouse) (adb : List Alert)
    (role : SocketRole) (userId : String) : List Alert :=
  let locs := ((fdb.filter (fun fh => ownsFarmhouse fh role userId)).map
      (fun fh => fh.location)).filter (fun l => l != "")
  adb.filter (fun a => locs.contains a.location)

theorem roleFarmhouses_eq_filter (fdb : List Farmhouse) (role : SocketRole) (userId : String) :
    roleFarmhouses fdb role userId = fdb.filter (fun fh => ownsFarmhouse fh role userId) := by
  cases role <;> rfl

theorem getFilteredAlerts_eq_spec (fdb : List Farmhouse) (adb : List Alert)
    (role : SocketRole) (userId : String) :
    getFilteredAlerts fdb adb role userId = specAlertSet fdb adb role userId := by
  unfold getFilteredAlerts specAlertSet
  rw [roleFarmhouses_eq_filter]
  by_cases h : (fdb.filter (fun fh => ownsFarmhouse fh role userId)).length = 0
  · rw [List.length_eq_zero] at h
    simp [h]
  · simp only [beq_iff_eq, h, if_false]

/-- C1: the socket visibility computation agrees with the reference
definition: filter the farmhouses by the role-appropriate ownership
field, collect their non-empty locations, and keep exactly the alerts
whose location belongs to that set; when the user owns no farmhouse the
result is empty, and an alert whose location only matches an empty
farmhouse location is excluded. -/
theorem getFilteredAlerts_correct (fdb : List Farmhouse) (adb : List Alert)
    (role : SocketRole) (userId : String) :
    getFilteredAlerts fdb adb role userId = specAlertSet fdb adb role userId ∧
    (roleFarmhouses fdb role userId = [] → getFilteredAlerts fdb adb role userId = []) ∧
    (∀ a ∈ adb, (∀ fh ∈ fdb, ownsFarmhouse fh role userId = true → fh.location ≠ "" →
        a.location ≠ fh.location) → a ∉ getFilteredAlerts fdb adb role userId) := by
  refine ⟨getFilteredAlerts_eq_spec fdb adb role userId, ?_, ?_⟩
  · intro h
    unfold getFilteredAlerts
    simp [h]
  · intro a _ hnone hmem
    rw [getFilteredAlerts_eq_spec] at hmem
    unfold specAlertSet at hmem
    simp only [List.mem_filter, List.contains, List.elem_iff, List.mem_map,
      bne_iff_ne] at hmem
    obtain ⟨-, ⟨fh, ⟨hfdb, howns⟩, hloc⟩, hne⟩ := hmem
    exact hnone fh hfdb howns (hloc ▸ hne) hloc.symm

/-- Witness for C1 at a concrete input: an admin owning one farmhouse
(location "Lahore") sees the same set as the reference definition, and a
second user owning no farmhouse gets the empty list. -/
theorem getFilteredAlerts_correct_witness :
    getFilteredAlerts
        [⟨"f1", "FARM-1", "Green Valley", "m1", "a1", ["s1"], "Lahore"⟩]
        [⟨"t1", "c1", "Lahore", "d1"⟩, ⟨"t2", "c2", "", "d2"⟩]
        .admin "a1" =
      specAlertSet
        [⟨"f1", "FARM-1", "Green Valley", "m1", "a1", ["s1"], "Lahore"⟩]
        [⟨"t1", "c1", "Lahore", "d1"⟩, ⟨"t2", "c2", "", "d2"⟩]
        .admin "a1" ∧
    getFilteredAlerts
        [⟨"f1", "FARM-1", "Green Valley", "m1", "a1", ["s1"], "Lahore"⟩]
        [⟨"t1", "c1", "Lahore", "d1"⟩]
        .admin "nobody" = [] :=
  ⟨(getFilteredAlerts_correct
      [⟨"f1", "FARM-1", "Green Valley", "m1", "a1", ["s1"], "Lahore"⟩]
      [⟨"t1", "c1", "Lahore", "d1"⟩, ⟨"t2", "c2", "", "d2"⟩]
      .admin "a1").1,
   (getFilteredAlerts_correct
      [⟨"f1", "FARM-1", "Green Valley", "m1", "a1", ["s1"], "Lahore"⟩]
      [⟨"t1", "c1", "Lahore", "d1"⟩]
      .admin "nobody").2.1 (by decide)⟩

/-- Membership characterisation of the socket visibility set. -/
theorem mem_getFilteredAlerts_iff (fdb : List Farmhouse) (adb : List Alert)
    (role : SocketRole) (userId : String) (a : Alert) :
    a ∈ getFilteredAlerts fdb adb role userId ↔
      a ∈ adb ∧ ∃ fh, fh ∈ fdb ∧ ownsFarmhouse fh role userId = true ∧
        fh.location ≠ "" ∧ a.location = fh.location := by
  rw [getFilteredAlerts_eq_spec]
  unfold specAlertSet
  simp only [List.mem_filter, List.contains, List.elem_iff, List.mem_map, bne_iff_ne]
  constructor
  · rintro ⟨ha, ⟨fh, ⟨hfdb, howns⟩, hloc⟩, hne⟩
    exact ⟨ha, fh, hfdb, howns, hloc ▸ hne, hloc.symm⟩
  · rintro ⟨ha, fh, hfdb, howns, hne, hloc⟩
    exact ⟨ha, ⟨fh, ⟨hfdb, howns⟩, hloc.symm⟩, hloc ▸ hne⟩

/-- `GET /alerts/by-admin/:userId` from `routes/alerts.js`: look up the
farmhouses whose `admin` equals the path parameter, answer 404 when
there are none, otherwise filter the whole alert collection by the
non-empty farmhouse locations and answer 200.  The body is `none` for
the 404 error object and `some` of the alert list on success. -/
def alertsByAdmin (fdb : List Farmhouse) (adb : List Alert) (userId : String) :
    Nat × Option (List Alert) :=
  let farmhouses := fdb.filter (fun fh => fh.admin == userId)
  if farmhouses.length == 0 then (404, none)
  else
    let farmhouseLocations := (farmhouses.map (fun fh => fh.location)).filter (fun l => l != "")
    (200, some (adb.filter (fun a => farmhouseLocations.contains a.location)))

theorem alertsByAdmin_of_owner (fdb : List Farmhouse) (adb : List Alert) (userId : String)
    (h : fdb.filter (fun fh => fh.admin == userId) ≠ []) :
    alertsByAdmin fdb adb userId =
      (200, some (getFilteredAlerts fdb adb .admin userId)) := by
  have hlen : ((fdb.filter (fun fh => fh.admin == userId)).length == 0) = false := by
    simp only [beq_eq_false_iff_ne, ne_eq, List.length_eq_zero]
    exact h
  simp only [alertsByAdmin, getFilteredAlerts, roleFarmhouses, hlen, if_false,
    Bool.false_eq_true]

/-- C2 counterexample: the claim as stated fails when the shared
location `L` is the empty string.  Admin "A" owns the farmhouse (so the
precondition holds), the farmhouse's location and the alert's location
are both `""`, yet the alert is pushed to neither feed because the
visibility computation drops empty locations. -/
theorem alertsByAdmin_socket_claim_cex :
    (⟨"f1", "FARM-1", "Farm", "m1", "A", [], ""⟩ : Farmhouse) ∈
        [(⟨"f1", "FARM-1", "Farm", "m1", "A", [], ""⟩ : Farmhouse)] ∧
    (⟨"f1", "FARM-1", "Farm", "m1", "A", [], ""⟩ : Farmhouse).admin = "A" ∧
    (⟨"t", "c", "", "d"⟩ : Alert).location =
        (⟨"f1", "FARM-1", "Farm", "m1", "A", [], ""⟩ : Farmhouse).location ∧
    [(⟨"f1", "FARM-1", "Farm", "m1", "A", [], ""⟩ : Farmhouse)].filter
        (fun fh => fh.admin == "A") ≠ [] ∧
    (⟨"t", "c", "", "d"⟩ : Alert) ∉
        getFilteredAlerts [⟨"f1", "FARM-1", "Farm", "m1", "A", [], ""⟩]
          [⟨"t", "c", "", "d"⟩] .admin "A" ∧
    (alertsByAdmin [⟨"f1", "FARM-1", "Farm", "m1", "A", [], ""⟩]
        [⟨"t", "c", "", "d"⟩] "A").2 = some [] := by
  decide

/-- C2 (amended): for an admin `A` owning at least one farmhouse, the
by-admin route answers 200 with exactly the socket-feed alert set; an
alert located at a **non-empty** farmhouse location of `A` appears in
both, and an alert whose location matches no farmhouse of `A` appears
in neither. -/
theorem alertsByAdmin_matches_socket (fdb : List Farmhouse) (adb : List Alert) (A : String)
    (hown : fdb.filter (fun fh => fh.admin == A) ≠ []) :
    alertsByAdmin fdb adb A = (200, some (getFilteredAlerts fdb adb .admin A)) ∧
    (∀ fh a, fh ∈ fdb → fh.admin = A → fh.location ≠ "" → a ∈ adb →
      a.location = fh.location →
      a ∈ getFilteredAlerts fdb adb .admin A ∧
      a ∈ (alertsByAdmin fdb adb A).2.getD []) ∧
    (∀ a, (∀ fh, fh ∈ fdb → fh.admin = A → a.location ≠ fh.location) →
      a ∉ getFilteredAlerts fdb adb .admin A ∧
      a ∉ (alertsByAdmin fdb adb A).2.getD []) := by
  have hbody := alertsByAdmin_of_owner fdb adb A hown
  refine ⟨hbody, ?_, ?_⟩
  · intro fh a hfdb hadmin hne ha hloc
    have hmem : a ∈ getFilteredAlerts fdb adb .admin A := by
      rw [mem_getFilteredAlerts_iff]
      exact ⟨ha, fh, hfdb, by simp [ownsFarmhouse, hadmin], hne, hloc⟩
    refine ⟨hmem, ?_⟩
    rw [hbody]
    simpa using hmem
  · intro a hnone
    have hmem : a ∉ getFilteredAlerts fdb adb .admin A := by
      rw [mem_getFilteredAlerts_iff]
      rintro ⟨-, fh, hfdb, howns, -, hloc⟩
      simp only [ownsFarmhouse, beq_iff_eq] at howns
      exact hnone fh hfdb howns hloc
    refine ⟨hmem, ?_⟩
    rw [hbody]
    simpa using hmem

/-- Witness for C2 (amended) at a concrete input: admin "A" owns a
farmhouse in Lahore, and the by-admin route answers 200 with the
socket-feed set. -/
theorem alertsByAdmin_matches_socket_witness :
    [(⟨"f1", "FARM-1", "Farm", "m1", "A", [], "Lahore"⟩ : Farmhouse)].filter
        (fun fh => fh.admin == "A") ≠ [] ∧
    alertsByAdmin [⟨"f1", "FARM-1", "Farm", "m1", "A", [], "Lahore"⟩]
        [⟨"t", "c", "Lahore", "d"⟩, ⟨"t2", "c2", "Karachi", "d2"⟩] "A" =
      (200, some (getFilteredAlerts
        [⟨"f1", "FARM-1", "Farm", "m1", "A", [], "Lahore"⟩]
        [⟨"t", "c", "Lahore", "d"⟩, ⟨"t2", "c2", "Karachi", "d2"⟩] .admin "A")) :=
  ⟨by decide,
   (alertsByAdmin_matches_socket
      [⟨"f1", "FARM-1", "Farm", "m1", "A", [], "Lahore"⟩]
      [⟨"t", "c", "Lahore", "d"⟩, ⟨"t2", "c2", "Karachi", "d2"⟩] "A" (by decide)).1⟩

/-- A change-stream event as consumed by the socket handler in
`index.js`: only `operationType` is inspected; the attached document
(if any) is carried but never read. -/
structure ChangeEvent where
  operationType : String
  fullDocument : Option Alert
  deriving Repr, DecidableEq

/-- The operation-type test of the `alertChangeStream.on('change', ...)`
handler in `index.js`. -/
def relevantChange (op : String) : Bool :=
  op == "insert" || op == "update" || op == "replace" || op == "delete"

/-- The per-event behaviour of the socket handler in `index.js`: on a
relevant change, re-run `getFilteredAlerts` on the current collections
and send the whole list (`some`); otherwise send nothing (`none`). -/
def onChangePush (fdb : List Farmhouse) (adb : List Alert)
    (role : SocketRole) (userId : String) (ev : ChangeEvent) : Option (List Alert) :=
  if relevantChange ev.operationType then
    some (getFilteredAlerts fdb adb role userId)
  else none

/-- The single message pushed right after a successful connection in
`index.js` (`await sendAlerts()`). -/
def initialPush (fdb : List Farmhouse) (adb : List Alert)
    (role : SocketRole) (userId : String) : List Alert :=
  getFilteredAlerts fdb adb role userId

/-- C3: on an insert/update/replace/delete event the handler sends the
full alert set recomputed from scratch by the same visibility
computation used on connect (one whole JSON array, not a delta — the
message does not depend on the event's document); on any other
operation type nothing is sent. -/
theorem onChangePush_correct (fdb : List Farmhouse) (adb : List Alert)
    (role : SocketRole) (userId : String) (ev : ChangeEvent) :
    (relevantChange ev.operationType = true →
      onChangePush fdb adb role userId ev = some (specAlertSet fdb adb role userId) ∧
      onChangePush fdb adb role userId ev = some (initialPush fdb adb role userId)) ∧
    (relevantChange ev.operationType = false →
      onChangePush fdb adb role userId ev = none) ∧
    (∀ d d', onChangePush fdb adb role userId ⟨ev.operationType, d⟩ =
      onChangePush fdb adb role userId ⟨ev.operationType, d'⟩) := by
  refine ⟨?_, ?_, ?_⟩
  · intro h
    constructor
    · simp [onChangePush, h, getFilteredAlerts_eq_spec]
    · simp [onChangePush, h, initialPush]
  · intro h
    simp [onChangePush, h]
  · intro d d'
    simp [onChangePush]

/-- Witness for C3 at concrete events: an `insert` event triggers a
full re-push, while an `invalidate` event sends nothing. -/
theorem onChangePush_correct_witness :
    relevantChange (ChangeEvent.operationType ⟨"insert", none⟩) = true ∧
    onChangePush [] [⟨"t", "c", "l", "d"⟩] .admin "a1" ⟨"insert", none⟩ =
      some (initialPush [] [⟨"t", "c", "l", "d"⟩] .admin "a1") ∧
    relevantChange (ChangeEvent.operationType ⟨"invalidate", none⟩) = false ∧
    onChangePush [] [⟨"t", "c", "l", "d"⟩] .admin "a1" ⟨"invalidate", none⟩ = none :=
  ⟨by decide,
   ((onChangePush_correct [] [⟨"t", "c", "l", "d"⟩] .admin "a1" ⟨"insert", none⟩).1
      (by decide)).2,
   by decide,
   (onChangePush_correct [] [⟨"t", "c", "l", "d"⟩] .admin "a1" ⟨"invalidate", none⟩).2.1
      (by decide)⟩

/-- JS `String.prototype.split` with a one-character separator, on
character lists (`"".split(x)` is `[""]`, so `splitChar sep [] = [[]]`). -/
def splitChar (sep : Char) : List Char → List (List Char)
  | [] => [[]]
  | c :: cs =>
    if c = sep then [] :: splitChar sep cs
    else
      match splitChar sep cs with
      | [] => [[c]]
      | seg :: segs => (c :: seg) :: segs

/-- JS `Array.prototype.join` with a one-character separator. -/
def joinChar (sep : Char) : List (List Char) → List Char
  | [] => []
  | [x] => x
  | x :: xs => x ++ sep :: joinChar sep xs

theorem joinChar_cons_cons (sep : Char) (x y : List Char) (ys : List (List Char)) :
    joinChar sep (x :: y :: ys) = x ++ sep :: joinChar sep (y :: ys) := rfl

theorem splitChar_ne_nil (sep : Char) : ∀ l : List Char, splitChar sep l ≠ []
  | [] => by simp [splitChar]
  | c :: cs => by
    unfold splitChar
    by_cases hc : c = sep
    · simp [hc]
    · rw [if_neg hc]
      cases h : splitChar sep cs <;> simp

theorem splitChar_no_sep (sep : Char) : ∀ l : List Char, sep ∉ l → splitChar sep l = [l]
  | [], _ => rfl
  | c :: cs, h => by
    have hc : c ≠ sep := fun hcs => h (hcs ▸ List.mem_cons_self c cs)
    have ih := splitChar_no_sep sep cs (fun hm => h (List.mem_cons_of_mem c hm))
    unfold splitChar
    rw [if_neg hc, ih]

theorem splitChar_append (sep : Char) :
    ∀ l1 l2 : List Char, sep ∉ l1 →
      splitChar sep (l1 ++ sep :: l2) = l1 :: splitChar sep l2
  | [], l2, _ => by simp [splitChar]
  | c :: cs, l2, h => by
    have hc : c ≠ sep := fun hcs => h (hcs ▸ List.mem_cons_self c cs)
    have ih := splitChar_append sep cs l2 (fun hm => h (List.mem_cons_of_mem c hm))
    show splitChar sep (c :: (cs ++ sep :: l2)) = _
    conv_lhs => rw [splitChar]
    rw [if_neg hc, ih]

theorem joinChar_splitChar (sep : Char) : ∀ l : List Char, joinChar sep (splitChar sep l) = l
  | [] => rfl
  | c :: cs => by
    have ih := joinChar_splitChar sep cs
    unfold splitChar
    by_cases hc : c = sep
    · rw [if_pos hc]
      obtain ⟨s, ss, hs⟩ := List.exists_cons_of_ne_nil (splitChar_ne_nil sep cs)
      rw [hs] at ih ⊢
      rw [joinChar_cons_cons]
      simp [ih, hc]
    · rw [if_neg hc]
      obtain ⟨s, ss, hs⟩ := List.exists_cons_of_ne_nil (splitChar_ne_nil sep cs)
      rw [hs] at ih ⊢
      cases ss with
      | nil =>
        simp only [joinChar] at ih ⊢
        simp [ih]
      | cons s2 ss2 =>
        rw [joinChar_cons_cons] at ih ⊢
        simp [ih]

/-- JS regex word characters (`\w` = `[A-Za-z0-9_]`). -/
def wordChar (c : Char) : Bool := c.isAlphanum || c == '_'

/-- The literal spelling of each role in the connection URL. -/
def roleChars (role : SocketRole) : List Char :=
  match role with
  | .admin => "admin".data
  | .manager => "manager".data
  | .assistant => "assistant".data

/-- The URL match of `wss.on('connection')` in `index.js`:
`url.match(/^\/alerts\/(admin|manager|assistant)\/(\w+)$/)`.  Since a
word character is never `'/'` and the role literals contain no `'/'`,
the regex matches exactly when splitting on `'/'` yields the four
segments `["", "alerts", role, userId]` with the role one of the three
literals and the userId a non-empty word-character string. -/
def parseAlertPath (url : List Char) : Option (SocketRole × List Char) :=
  match splitChar '/' url with
  | [[], seg1, seg2, seg3] =>
    if seg1 = "alerts".data ∧ seg3 ≠ [] ∧ seg3.all wordChar = true then
      if seg2 = "admin".data then some (.admin, seg3)
      else if seg2 = "manager".data then some (.manager, seg3)
      else if seg2 = "assistant".data then some (.assistant, seg3)
      else none
    else none
  | _ => none

/-- A well-formed connection path, written out as concatenation. -/
def pathOf (role : SocketRole) (uid : List Char) : List Char :=
  '/' :: ("alerts".data ++ '/' :: (roleChars role ++ '/' :: uid))

theorem slash_not_wordChar : wordChar '/' = false := by decide

theorem slash_not_mem_roleChars (role : SocketRole) : '/' ∉ roleChars role := by
  cases role <;> decide

theorem splitChar_cons_sep (sep : Char) (l : List Char) :
    splitChar sep (sep :: l) = [] :: splitChar sep l := by
  rw [splitChar]
  simp

theorem splitChar_pathOf (r : SocketRole) (u : List Char) (hsl : '/' ∉ u) :
    splitChar '/' (pathOf r u) = [[], "alerts".data, roleChars r, u] := by
  unfold pathOf
  rw [splitChar_cons_sep, splitChar_append '/' ("alerts".data) _ (by decide),
    splitChar_append '/' (roleChars r) _ (slash_not_mem_roleChars r),
    splitChar_no_sep '/' u hsl]

theorem parseAlertPath_some_iff (url : List Char) (r : SocketRole) (u : List Char) :
    parseAlertPath url = some (r, u) ↔
      url = pathOf r u ∧ u ≠ [] ∧ u.all wordChar = true := by
  constructor
  · intro h
    unfold parseAlertPath at h
    split at h
    next seg1 seg2 seg3 heq =>
      have hurl : url = joinChar '/' [[], seg1, seg2, seg3] := by
        rw [← heq, joinChar_splitChar]
      split_ifs at h with h1 h2 h3 h4
      · simp only [Option.some.injEq, Prod.mk.injEq] at h
        obtain ⟨hr, hu⟩ := h
        subst hr; subst hu
        refine ⟨?_, h1.2.1, h1.2.2⟩
        rw [hurl]
        simp [joinChar, pathOf, roleChars, h1.1, h2]
      · simp only [Option.some.injEq, Prod.mk.injEq] at h
        obtain ⟨hr, hu⟩ := h
        subst hr; subst hu
        refine ⟨?_, h1.2.1, h1.2.2⟩
        rw [hurl]
        simp [joinChar, pathOf, roleChars, h1.1, h3]
      · simp only [Option.some.injEq, Prod.mk.injEq] at h
        obtain ⟨hr, hu⟩ := h
        subst hr; subst hu
        refine ⟨?_, h1.2.1, h1.2.2⟩
        rw [hurl]
        simp [joinChar, pathOf, roleChars, h1.1, h4]
    next => exact Option.noConfusion h
  · rintro ⟨rfl, hne, hall⟩
    have hsl : '/' ∉ u := by
      intro hm
      have := List.all_eq_true.mp hall _ hm
      simp [wordChar] at this
    have hsplit := splitChar_pathOf r u hsl
    unfold parseAlertPath
    rw [hsplit]
    show (if "alerts".data = "alerts".data ∧ u ≠ [] ∧ u.all wordChar = true then
        if roleChars r = "admin".data then some (SocketRole.admin, u)
        else if roleChars r = "manager".data then some (SocketRole.manager, u)
        else if roleChars r = "assistant".data then some (SocketRole.assistant, u)
        else none
      else none) = some (r, u)
    rw [if_pos ⟨rfl, hne, hall⟩]
    cases r with
    | admin => rw [if_pos (by decide)]
    | manager => rw [if_neg (by decide), if_pos (by decide)]
    | assistant => rw [if_neg (by decide), if_neg (by decide), if_pos (by decide)]

/-- Outcome of a socket connection attempt in `index.js`: either the
server calls `ws.close()` without sending anything, or it keeps the
connection open after pushing exactly one initial message. -/
inductive ConnOutcome where
  | closedNoMessage
  | openedWith (initial : List Alert)
  deriving Repr, DecidableEq

/-- `wss.on('connection')` from `index.js`: parse the URL, close without
any payload when the regex does not match, otherwise send one initial
`getFilteredAlerts` message for the parsed role and userId. -/
def connection (fdb : List Farmhouse) (adb : List Alert) (url : List Char) : ConnOutcome :=
  match parseAlertPath url with
  | none => .closedNoMessage
  | some (role, uid) => .openedWith (getFilteredAlerts fdb adb role (String.mk uid))

/-- C4: a connection whose URL is not exactly `/alerts/{role}/{userId}`
with `role` one of the three literals and `userId` a non-empty
word-character string is closed immediately with no message; a
well-formed URL yields exactly one initial message, the alert array for
that role and user. -/
theorem connection_protocol (fdb : List Farmhouse) (adb : List Alert) (url : List Char) :
    ((¬ ∃ r u, url = pathOf r u ∧ u ≠ [] ∧ u.all wordChar = true) →
      connection fdb adb url = .closedNoMessage) ∧
    (∀ r u, url = pathOf r u → u ≠ [] → u.all wordChar = true →
      connection fdb adb url = .openedWith (getFilteredAlerts fdb adb r (String.mk u))) := by
  constructor
  · intro hmal
    unfold connection
    cases hp : parseAlertPath url with
    | none => rfl
    | some ru =>
      exact absurd ⟨ru.1, ru.2, (parseAlertPath_some_iff url ru.1 ru.2).mp hp⟩ hmal
  · intro r u hurl hne hall
    have hp := (parseAlertPath_some_iff url r u).mpr ⟨hurl, hne, hall⟩
    unfold connection
    rw [hp]

/-- Witness for C4: the malformed path "/bogus" is closed with no
message, and the well-formed path "/alerts/admin/a1" gets exactly the
initial alert array for admin "a1". -/
theorem connection_protocol_witness :
    connection [⟨"f1", "FARM-1", "Farm", "m1", "a1", [], "Lahore"⟩]
        [⟨"t", "c", "Lahore", "d"⟩] ("/bogus".data) = .closedNoMessage ∧
    connection [⟨"f1", "FARM-1", "Farm", "m1", "a1", [], "Lahore"⟩]
        [⟨"t", "c", "Lahore", "d"⟩] ("/alerts/admin/a1".data) =
      .openedWith (getFilteredAlerts [⟨"f1", "FARM-1", "Farm", "m1", "a1", [], "Lahore"⟩]
        [⟨"t", "c", "Lahore", "d"⟩] .admin (String.mk ['a', '1'])) :=
  ⟨(connection_protocol [⟨"f1", "FARM-1", "Farm", "m1", "a1", [], "Lahore"⟩]
      [⟨"t", "c", "Lahore", "d"⟩] ("/bogus".data)).1
    (by
      rintro ⟨r, u, hurl, hne, hall⟩
      have h := (parseAlertPath_some_iff ("/bogus".data) r u).mpr ⟨hurl, hne, hall⟩
      have hnone : parseAlertPath ("/bogus".data) = none := by decide
      rw [hnone] at h
      exact Option.noConfusion h),
   (connection_protocol [⟨"f1", "FARM-1", "Farm", "m1", "a1", [], "Lahore"⟩]
      [⟨"t", "c", "Lahore", "d"⟩] ("/alerts/admin/a1".data)).2 .admin ['a', '1']
    (by decide) (by decide) (by decide)⟩

/-- The `manager` middleware from `middleware/manager.js`:
`req.user && req.user.role === 'manager'`, where `req.user` is the
decoded bearer-token user (absent when auth did not attach one). -/
def managerMw (user : Option String) : Bool :=
  match user with
  | some role => role == "manager"
  | none => false

/-- Modelled from the spec: `middleware/superadmin.js` is not among the
source files; the spec describes the gating functions as equality checks
of the decoded role, the alert routes document themselves as
"super admin only", and the User schema's role enum names the value
`super_admin`. -/
def superadminMw (user : Option String) : Bool :=
  match user with
  | some role => role == "super_admin"
  | none => false

/-- A role-gated Express route: the middleware runs before the handler
and answers 403 without invoking it when the check fails. -/
def gatedBy {σ : Type} (mw : Option String → Bool) (handler : σ → Nat × σ)
    (user : Option String) (db : σ) : Nat × σ :=
  if mw user then handler db else (403, db)

/-- `GET /farmhouse/admin` from `routes/farmhouse.js`: an inline role
check answering 403 for non-admins, then the farmhouses of the current
admin.  Result is (status, body, database afterwards). -/
def farmhouseAdminList (role userId : String) (db : List Farmhouse) :
    Nat × List Farmhouse × List Farmhouse :=
  if role != "admin" then (403, [], db)
  else (200, db.filter (fun fh => fh.admin == userId), db)

/-- `POST /alerts` from `routes/alerts.js` (`auth, superadmin` chain):
create and save the alert when the superadmin gate passes. -/
def createAlert (user : Option String) (a : Alert) (db : List Alert) : Nat × List Alert :=
  if superadminMw user then (201, db ++ [a]) else (403, db)

/-- C5: a request to a manager-gated route, to the admin-only farmhouse
listing, or to the superadmin-only alert creation, whose token decodes
to any other role, is answered 403 and leaves the database unchanged. -/
theorem role_gating_403 (role : String) :
    (∀ (σ : Type) (handler : σ → Nat × σ) (db : σ), role ≠ "manager" →
      gatedBy managerMw handler (some role) db = (403, db)) ∧
    (∀ (userId : String) (db : List Farmhouse), role ≠ "admin" →
      farmhouseAdminList role userId db = (403, [], db)) ∧
    (∀ (a : Alert) (db : List Alert), role ≠ "super_admin" →
      createAlert (some role) a db = (403, db)) := by
  refine ⟨?_, ?_, ?_⟩
  · intro σ handler db hrole
    simp [gatedBy, managerMw, hrole]
  · intro userId db hrole
    simp [farmhouseAdminList, hrole]
  · intro a db hrole
    simp [createAlert, superadminMw, hrole]

/-- Witness for C5: an assistant token is rejected with 403 by all three
gates, with the database unchanged. -/
theorem role_gating_403_witness :
    gatedBy managerMw (fun db => (200, db)) (some "assistant") [(0 : Nat)] = (403, [0]) ∧
    farmhouseAdminList "assistant" "u1" [] = (403, [], []) ∧
    createAlert (some "assistant") ⟨"t", "c", "l", "d"⟩ [] = (403, []) :=
  ⟨(role_gating_403 "assistant").1 (List Nat) (fun db => (200, db)) [0] (by decide),
   (role_gating_403 "assistant").2.1 "u1" [] (by decide),
   (role_gating_403 "assistant").2.2 ⟨"t", "c", "l", "d"⟩ [] (by decide)⟩

/-- JS falsiness of an optional string body field (`!x` is true for a
missing field and for the empty string). -/
def falsyStr (x : Option String) : Bool :=
  match x with
  | none => true
  | some s => s == ""

/-- JS falsiness of an optional numeric body field (`!x` is true for a
missing field and for 0). -/
def falsyNum (x : Option Int) : Bool :=
  match x with
  | none => true
  | some n => n == 0

/-- An animal document, after `models/Animal.js`. -/
structure AnimalDoc where
  tagId : String
  breed : String
  gender : String
  dob : String
  weight : Int
  condition : String
  status : String
  farmhouse : String
  sireId : String
  damId : String
  acquisitionType : String
  acquisitionDate : String
  origin : String
  images : List String
  notes : String
  deriving Repr, DecidableEq

/-- The JSON body of `POST /animals`; `none` models an absent field. -/
structure AnimalCreateBody where
  tagId : Option String
  breed : Option String
  gender : Option String
  dob : Option String
  weight : Option Int
  condition : Option String
  status : Option String
  farmhouse : Option String
  sireId : Option String
  damId : Option String
  acquisitionType : Option String
  acquisitionDate : Option String
  origin : Option String
  images : Option (List String)
  notes : Option String
  deriving Repr, DecidableEq

/-- The document built from a fully validated create body. -/
def animalOfBody (b : AnimalCreateBody) : AnimalDoc :=
  ⟨b.tagId.getD "", b.breed.getD "", b.gender.getD "", b.dob.getD "",
   b.weight.getD 0, b.condition.getD "", b.status.getD "", b.farmhouse.getD "",
   b.sireId.getD "", b.damId.getD "", b.acquisitionType.getD "",
   b.acquisitionDate.getD "", b.origin.getD "", b.images.getD [], b.notes.getD ""⟩

/-- `POST /animals` from `routes/animals.js`: falsy required fields give
400 before any save; then the gender enum check, then the weight check,
then the save (the images type check always passes in this typed
model). -/
def animalsCreate (b : AnimalCreateBody) (db : List AnimalDoc) : Nat × List AnimalDoc :=
  if falsyStr b.tagId || falsyStr b.breed || falsyStr b.gender || falsyStr b.dob ||
      falsyNum b.weight || falsyStr b.condition || falsyStr b.status ||
      falsyStr b.farmhouse || falsyStr b.acquisitionType || falsyStr b.acquisitionDate then
    (400, db)
  else if !(b.gender == some "Male" || b.gender == some "Female") then (400, db)
  else if b.weight.getD 0 ≤ 0 then (400, db)
  else (201, db ++ [animalOfBody b])

/-- A breeding document, after `models/Breeding.js`. -/
structure BreedingDoc where
  sireTagId : String
  damTagId : String
  breedingDate : String
  breedingMethod : String
  expectedDelivery : String
  actualDelivery : String
  numberOfOffspring : Int
  status : String
  cost : Int
  performedBy : String
  notes : String
  deriving Repr, DecidableEq

/-- The JSON body of `POST /breeding`. -/
structure BreedingCreateBody where
  sireTagId : Option String
  damTagId : Option String
  breedingDate : Option String
  breedingMethod : Option String
  expectedDelivery : Option String
  actualDelivery : Option String
  numberOfOffspring : Option Int
  status : Option String
  cost : Option Int
  performedBy : Option String
  notes : Option String
  deriving Repr, DecidableEq

/-- The document built from a fully validated breeding body. -/
def breedingOfBody (b : BreedingCreateBody) : BreedingDoc :=
  ⟨b.sireTagId.getD "", b.damTagId.getD "", b.breedingDate.getD "",
   b.breedingMethod.getD "", b.expectedDelivery.getD "", b.actualDelivery.getD "",
   b.numberOfOffspring.getD 0, b.status.getD "", b.cost.getD 0,
   b.performedBy.getD "", b.notes.getD ""⟩

/-- `POST /breeding` from `routes/breeding.js`: the string fields are
checked falsy, `numberOfOffspring` and `cost` are checked
`=== undefined`, then both numbers must be non-negative. -/
def breedingCreate (b : BreedingCreateBody) (db : List BreedingDoc) : Nat × List BreedingDoc :=
  if falsyStr b.sireTagId || falsyStr b.damTagId || falsyStr b.breedingDate ||
      falsyStr b.breedingMethod || falsyStr b.expectedDelivery ||
      falsyStr b.actualDelivery || (b.numberOfOffspring == none) || falsyStr b.status ||
      (b.cost == none) || falsyStr b.performedBy || falsyStr b.notes then
    (400, db)
  else if b.numberOfOffspring.getD 0 < 0 then (400, db)
  else if b.cost.getD 0 < 0 then (400, db)
  else (201, db ++ [breedingOfBody b])

/-- `POST /farmhouse` from `routes/farmhouse.js`: the handler performs
no explicit validation, but `models/Farmhouse.js` marks `name` as
required, so saving with a missing (or empty) `Name` raises a Mongoose
validation error which the route's catch turns into a 400 with nothing
persisted.  `newOid`/`newFid` stand for the generated identifiers. -/
def farmhouseCreate (adminId : String) (Name manager_id : Option String)
    (assistants : Option (List String)) (location : Option String)
    (newOid newFid : String) (db : List Farmhouse) : Nat × List Farmhouse :=
  if falsyStr Name then (400, db)
  else (201, db ++ [⟨newOid, newFid, Name.getD "", manager_id.getD "", adminId,
    assistants.getD [], location.getD ""⟩])

/-- C6: a POST create request with a required field missing is answered
400 and persists nothing — the stored collection after the request is
the one before it — for the animals, breeding and farmhouse routes. -/
theorem create_missing_field_400 :
    (∀ (b : AnimalCreateBody) (db : List AnimalDoc),
      (b.tagId = none ∨ b.breed = none ∨ b.gender = none ∨ b.dob = none ∨
       b.weight = none ∨ b.condition = none ∨ b.status = none ∨ b.farmhouse = none ∨
       b.acquisitionType = none ∨ b.acquisitionDate = none) →
      animalsCreate b db = (400, db)) ∧
    (∀ (b : BreedingCreateBody) (db : List BreedingDoc),
      (b.sireTagId = none ∨ b.damTagId = none ∨ b.breedingDate = none ∨
       b.breedingMethod = none ∨ b.expectedDelivery = none ∨ b.actualDelivery = none ∨
       b.numberOfOffspring = none ∨ b.status = none ∨ b.cost = none ∨
       b.performedBy = none ∨ b.notes = none) →
      breedingCreate b db = (400, db)) ∧
    (∀ (adminId : String) (manager_id : Option String)
       (assistants : Option (List String)) (location : Option String)
       (newOid newFid : String) (db : List Farmhouse),
      farmhouseCreate adminId none manager_id assistants location newOid newFid db =
        (400, db)) := by
  refine ⟨?_, ?_, ?_⟩
  · intro b db h
    rcases h with h | h | h | h | h | h | h | h | h | h <;>
      simp [animalsCreate, falsyStr, falsyNum, h]
  · intro b db h
    rcases h with h | h | h | h | h | h | h | h | h | h | h <;>
      simp [breedingCreate, falsyStr, h]
  · intro adminId manager_id assistants location newOid newFid db
    simp [farmhouseCreate, falsyStr]

/-- Witness for C6: concrete create requests each missing one required
field are rejected with 400 and leave the collections untouched. -/
theorem create_missing_field_400_witness :
    animalsCreate ⟨none, some "Boer", some "Male", some "2022-03-15", some 45,
        some "Good", some "Active", some "Papu Famu", none, none, some "Birth",
        some "2022-03-15", none, none, none⟩ [] = (400, []) ∧
    breedingCreate ⟨some "G001", some "G002", some "2024-01-15", some "Natural",
        some "2024-06-15", some "2024-06-18", none, some "Successful", some 0,
        some "Farm Manager", some "ok"⟩ [] = (400, []) ∧
    farmhouseCreate "a1" none (some "m1") (some []) (some "Lahore") "f1" "FARM-1" [] =
      (400, []) :=
  ⟨create_missing_field_400.1
      ⟨none, some "Boer", some "Male", some "2022-03-15", some 45, some "Good",
       some "Active", some "Papu Famu", none, none, some "Birth", some "2022-03-15",
       none, none, none⟩ [] (Or.inl rfl),
   create_missing_field_400.2.1
      ⟨some "G001", some "G002", some "2024-01-15", some "Natural", some "2024-06-15",
       some "2024-06-18", none, some "Successful", some 0, some "Farm Manager",
       some "ok"⟩ [] (by simp),
   create_missing_field_400.2.2 "a1" (some "m1") (some []) (some "Lahore") "f1" "FARM-1" []⟩

/-- `DELETE /breeding/:id` from `routes/breeding.js`: the result of
`findByIdAndDelete` is either a thrown exception (`.error msg`), no
matching record (`.ok none`), or the deleted record.  The catch block
answers **400** with the raw `err.message`. -/
def breedingDelete (found : Except String (Option BreedingDoc)) : Nat × String :=
  match found with
  | .error e => (400, e)
  | .ok none => (404, "Breeding record not found")
  | .ok (some _) => (200, "Breeding record deleted successfully")

/-- `DELETE /animals/:id` from `routes/animals.js`: same shape; the
catch block answers **400** with the raw `err.message`. -/
def animalsDelete (found : Except String (Option AnimalDoc)) : Nat × String :=
  match found with
  | .error e => (400, e)
  | .ok none => (404, "Animal not found")
  | .ok (some _) => (200, "Animal deleted successfully")

/-- `GET /alerts` from `routes/alerts.js`: a falsy user location gives
400; a thrown database exception is answered **500** with the raw
`err.message`; otherwise 200.  The `String` component is the error
message sent, `none` meaning a success body. -/
def alertsForUserLocation (loc : Option String) (found : Except String (List Alert)) :
    Nat × Option String :=
  match loc with
  | none => (400, some "User farmhouse location not set")
  | some l =>
    if l == "" then (400, some "User farmhouse location not set")
    else
      match found with
      | .error e => (500, some e)
      | .ok _ => (200, none)

/-- C7 counterexample: the claim says every handler answers 500 on an
unexpected database exception, but the breeding delete handler's catch
answers 400 (while still echoing the raw message). -/
theorem db_exception_status_cex :
    breedingDelete (.error "boom") = (400, "boom") ∧
    (breedingDelete (.error "boom")).1 ≠ 500 := by
  decide

/-- C7 (amended): when the database call throws an unexpected
exception, the raw exception message is echoed to the client in every
handler, but the status depends on the handler: the alerts list answers
500 while the breeding and animal delete handlers answer 400. -/
theorem db_exception_echoes_raw (e : String) :
    breedingDelete (.error e) = (400, e) ∧
    animalsDelete (.error e) = (400, e) ∧
    (∀ l : String, l ≠ "" → alertsForUserLocation (some l) (.error e) = (500, some e)) := by
  refine ⟨rfl, rfl, ?_⟩
  intro l hl
  simp [alertsForUserLocation, hl]

/-- Witness for C7 (amended) at a concrete exception and location. -/
theorem db_exception_echoes_raw_witness :
    breedingDelete (.error "connection reset") = (400, "connection reset") ∧
    alertsForUserLocation (some "Lahore") (.error "connection reset") =
      (500, some "connection reset") :=
  ⟨(db_exception_echoes_raw "connection reset").1,
   (db_exception_echoes_raw "connection reset").2.2 "Lahore" (by decide)⟩

/-- `splitChar` is a left inverse of `joinChar` on a non-empty list of
separator-free segments. -/
theorem splitChar_joinChar (sep : Char) :
    ∀ lines : List (List Char), lines ≠ [] → (∀ l ∈ lines, sep ∉ l) →
      splitChar sep (joinChar sep lines) = lines
  | [], h, _ => absurd rfl h
  | [x], _, hsep => by
    show splitChar sep x = [x]
    exact splitChar_no_sep sep x (hsep x (List.mem_singleton_self x))
  | x :: y :: ys, _, hsep => by
    rw [joinChar_cons_cons,
      splitChar_append sep x _ (hsep x (List.mem_cons_self x _)),
      splitChar_joinChar sep (y :: ys) (by simp)
        (fun l hl => hsep l (List.mem_cons_of_mem x hl))]

/-- The animals export `images` serialisation from `routes/animals.js`:
`Array.isArray(a.images) ? a.images.join(';') : ''`. -/
def exportImages (imgs : List (List Char)) : List Char := joinChar ';' imgs

/-- The animals import `images` deserialisation from
`routes/animals.js`: `row.images ? row.images.split(';') : []` (the
empty string is falsy). -/
def importImages (s : List Char) : List (List Char) :=
  if s = [] then [] else splitChar ';' s

theorem joinChar_ne_nil (sep : Char) :
    ∀ imgs : List (List Char), imgs ≠ [] → imgs ≠ [[]] → joinChar sep imgs ≠ []
  | [], h, _ => absurd rfl h
  | [x], _, h => by
    show x ≠ []
    intro hx
    exact h (by rw [hx])
  | x :: y :: ys, _, _ => by
    rw [joinChar_cons_cons]
    simp

/-- C8 counterexample: exporting an animal whose single image name
contains a semicolon and importing the file back splits that name in
two, so the images field does not round-trip as the same array. -/
theorem csv_images_roundtrip_cex :
    importImages (exportImages [['a', ';', 'b']]) = [['a'], ['b']] ∧
    importImages (exportImages [['a', ';', 'b']]) ≠ [['a', ';', 'b']] := by
  decide

/-- The double-quote character, written by code to avoid a quote inside
a character literal. -/
def dquote : Char := Char.ofNat 34

/-- The newline character separating CSV records. -/
def nlChar : Char := Char.ofNat 10

/-- Modelled from the spec: `utils/csvHelper.js` is not among the
source files; the spec describes it as a generic row-array→buffer
serialiser.  Field serialisation doubles embedded quotes (standard CSV
quoting, as in the repository's own swagger examples of quoted
fields). -/
def escapeField : List Char → List Char
  | [] => []
  | c :: cs =>
    if c = dquote then dquote :: dquote :: escapeField cs
    else c :: escapeField cs

/-- A serialised field: quoted, with embedded quotes doubled. -/
def renderField (f : List Char) : List Char := dquote :: (escapeField f ++ [dquote])

/-- A serialised record: its fields joined by commas. -/
def renderRow (row : List (List Char)) : List Char := joinChar ',' (row.map renderField)

/-- Modelled from the spec: the row-array→buffer serialiser of
`utils/csvHelper.js` — records joined by newlines (the header is simply
the first record). -/
def renderCSV (rows : List (List (List Char))) : List Char :=
  joinChar nlChar (rows.map renderRow)

/-- Parse one quoted field after its opening quote: a doubled quote is
an escaped literal quote, a single quote closes the field.  Returns the
field and the unconsumed rest. -/
def parseQuoted : List Char → Option (List Char × List Char)
  | [] => none
  | c :: rest =>
    if c = dquote then
      match rest with
      | c2 :: rest2 =>
        if c2 = dquote then
          match parseQuoted rest2 with
          | some (f, r) => some (dquote :: f, r)
          | none => none
        else some ([], rest)
      | [] => some ([], [])
    else
      match parseQuoted rest with
      | some (f, r) => some (c :: f, r)
      | none => none

/-- Modelled from the spec: the buffer→row-array parser of
`utils/csvHelper.js`, for one record — a comma-separated sequence of
quoted fields.  The fuel only bounds the recursion depth: every parsed
field consumes at least one character, so `length + 1` fuel can never
run out before the input does. -/
def parseRowFieldsF : Nat → List Char → Option (List (List Char))
  | 0, _ => none
  | _ + 1, [] => none
  | fuel + 1, c :: rest =>
    if c = dquote then
      match parseQuoted rest with
      | some (f, r) =>
        match r with
        | [] => some [f]
        | c2 :: r2 =>
          if c2 = ',' then
            match parseRowFieldsF fuel r2 with
            | some fs => some (f :: fs)
            | none => none
          else none
      | none => none
    else none

/-- One-record parse with sufficient fuel. -/
def parseRowFields (l : List Char) : Option (List (List Char)) :=
  parseRowFieldsF (l.length + 1) l

/-- Parse a list of serialised records, failing when any line fails. -/
def parseRows : List (List Char) → Option (List (List (List Char)))
  | [] => some []
  | line :: rest =>
    match parseRowFields line with
    | some row =>
      match parseRows rest with
      | some rows => some (row :: rows)
      | none => none
    | none => none

/-- Modelled from the spec: the whole-buffer parser — split on
newlines, then parse each record. -/
def parseCSV (s : List Char) : Option (List (List (List Char))) :=
  parseRows (splitChar nlChar s)

theorem escapeField_dq (cs : List Char) :
    escapeField (dquote :: cs) = dquote :: dquote :: escapeField cs := by
  simp [escapeField]

theorem escapeField_cons (c : Char) (cs : List Char) (hc : c ≠ dquote) :
    escapeField (c :: cs) = c :: escapeField cs := by
  simp [escapeField, hc]

theorem parseQuoted_dq_dq (rest2 : List Char) :
    parseQuoted (dquote :: dquote :: rest2) =
      match parseQuoted rest2 with
      | some (f, r) => some (dquote :: f, r)
      | none => none := rfl

theorem parseQuoted_dq_nil : parseQuoted [dquote] = some ([], []) := rfl

theorem parseQuoted_dq_other (c2 : Char) (rest2 : List Char) (hc2 : c2 ≠ dquote) :
    parseQuoted (dquote :: c2 :: rest2) = some ([], c2 :: rest2) := by
  simp [parseQuoted, hc2]

theorem parseQuoted_cons (c : Char) (rest : List Char) (hc : c ≠ dquote) :
    parseQuoted (c :: rest) =
      match parseQuoted rest with
      | some (f, r) => some (c :: f, r)
      | none => none := by
  conv_lhs => rw [parseQuoted.eq_def]
  simp [hc]

theorem parseQuoted_escape (f : List Char) :
    ∀ rest : List Char, rest.head? ≠ some dquote →
      parseQuoted (escapeField f ++ dquote :: rest) = some (f, rest) := by
  induction f with
  | nil =>
    intro rest hrest
    cases rest with
    | nil => exact parseQuoted_dq_nil
    | cons c2 rest2 =>
      have hc2 : c2 ≠ dquote := by
        intro hc
        exact hrest (by rw [hc]; rfl)
      exact parseQuoted_dq_other c2 rest2 hc2
  | cons c cs ih =>
    intro rest hrest
    by_cases hc : c = dquote
    · subst hc
      rw [escapeField_dq, List.cons_append, List.cons_append, parseQuoted_dq_dq,
        ih rest hrest]
    · rw [escapeField_cons c cs hc, List.cons_append, parseQuoted_cons c _ hc,
        ih rest hrest]

theorem renderRow_length : ∀ row : List (List Char), row.length ≤ (renderRow row).length
  | [] => by simp [renderRow, joinChar]
  | [f] => by
    show 1 ≤ (renderField f).length
    simp [renderField]
  | f :: g :: gs => by
    have ih := renderRow_length (g :: gs)
    show _ ≤ (joinChar ',' (renderField f :: renderField g :: gs.map renderField)).length
    rw [joinChar_cons_cons]
    show _ ≤ (renderField f ++ ',' :: renderRow (g :: gs)).length
    simp only [List.length_append, List.length_cons] at ih ⊢
    omega

theorem parseRowFieldsF_renderRow :
    ∀ (fuel : Nat) (row : List (List Char)), row ≠ [] → row.length ≤ fuel →
      parseRowFieldsF fuel (renderRow row) = some row
  | 0, row, hne, hfuel => by
    cases row with
    | nil => exact absurd rfl hne
    | cons f fs => simp at hfuel
  | fuel + 1, [], hne, _ => absurd rfl hne
  | fuel + 1, [f], _, _ => by
    have hq := parseQuoted_escape f [] (by simp)
    show parseRowFieldsF (fuel + 1) (dquote :: (escapeField f ++ [dquote])) = some [f]
    conv_lhs => rw [parseRowFieldsF.eq_def]
    simp [hq]
  | fuel + 1, f :: g :: gs, _, hfuel => by
    have ih := parseRowFieldsF_renderRow fuel (g :: gs) (by simp)
      (by simp only [List.length_cons] at hfuel ⊢; omega)
    have hshape : renderRow (f :: g :: gs) =
        dquote :: (escapeField f ++ dquote :: (',' :: renderRow (g :: gs))) := by
      show joinChar ',' (renderField f :: renderField g :: gs.map renderField) = _
      rw [joinChar_cons_cons]
      simp [renderField, List.append_assoc, renderRow]
    have hq := parseQuoted_escape f (',' :: renderRow (g :: gs)) (by
      intro h
      simp only [List.head?_cons, Option.some.injEq] at h
      exact absurd h (by decide))
    rw [hshape]
    conv_lhs => rw [parseRowFieldsF.eq_def]
    simp [hq, ih]

theorem parseRowFields_renderRow (row : List (List Char)) (hne : row ≠ []) :
    parseRowFields (renderRow row) = some row :=
  parseRowFieldsF_renderRow ((renderRow row).length + 1) row hne
    (by have := renderRow_length row; omega)

theorem mem_escapeField {x : Char} : ∀ f : List Char, x ∈ escapeField f → x ∈ f ∨ x = dquote
  | [], h => by simp [escapeField] at h
  | c :: cs, h => by
    unfold escapeField at h
    by_cases hc : c = dquote
    · rw [if_pos hc] at h
      rcases List.mem_cons.mp h with h | h
      · exact Or.inr h
      · rcases List.mem_cons.mp h with h | h
        · exact Or.inr h
        · rcases mem_escapeField cs h with h | h
          · exact Or.inl (List.mem_cons_of_mem c h)
          · exact Or.inr h
    · rw [if_neg hc] at h
      rcases List.mem_cons.mp h with h | h
      · exact Or.inl (h ▸ List.mem_cons_self c cs)
      · rcases mem_escapeField cs h with h | h
        · exact Or.inl (List.mem_cons_of_mem c h)
        · exact Or.inr h

theorem nl_not_mem_renderField (f : List Char) (hf : nlChar ∉ f) :
    nlChar ∉ renderField f := by
  intro hm
  unfold renderField at hm
  rcases List.mem_cons.mp hm with h | h
  · exact absurd h (by decide)
  · rcases List.mem_append.mp h with h | h
    · rcases mem_escapeField f h with h | h
      · exact hf h
      · exact absurd h (by decide)
    · rcases List.mem_singleton.mp h with h
      exact absurd h (by decide)

theorem mem_joinChar {x : Char} (sep : Char) :
    ∀ parts : List (List Char), x ∈ joinChar sep parts →
      x = sep ∨ ∃ p, p ∈ parts ∧ x ∈ p
  | [], h => by simp [joinChar] at h
  | [p], h => Or.inr ⟨p, List.mem_singleton_self p, h⟩
  | p :: q :: qs, h => by
    rw [joinChar_cons_cons] at h
    rcases List.mem_append.mp h with h | h
    · exact Or.inr ⟨p, List.mem_cons_self p _, h⟩
    · rcases List.mem_cons.mp h with h | h
      · exact Or.inl h
      · rcases mem_joinChar sep (q :: qs) h with h | ⟨p2, hp2, hx⟩
        · exact Or.inl h
        · exact Or.inr ⟨p2, List.mem_cons_of_mem p hp2, hx⟩

theorem nl_not_mem_renderRow (row : List (List Char))
    (h : ∀ f ∈ row, nlChar ∉ f) : nlChar ∉ renderRow row := by
  intro hm
  rcases mem_joinChar ',' _ hm with h1 | ⟨p, hp, hx⟩
  · exact absurd h1 (by decide)
  · rw [List.mem_map] at hp
    obtain ⟨f, hf, rfl⟩ := hp
    exact nl_not_mem_renderField f (h f hf) hx

theorem parseRows_map_renderRow :
    ∀ rows : List (List (List Char)), (∀ r ∈ rows, r ≠ []) →
      parseRows (rows.map renderRow) = some rows
  | [], _ => rfl
  | r :: rs, h => by
    have hr := parseRowFields_renderRow r (h r (List.mem_cons_self r rs))
    have ih := parseRows_map_renderRow rs (fun r2 hr2 => h r2 (List.mem_cons_of_mem r hr2))
    simp [parseRows, hr, ih]

theorem parseCSV_renderCSV (rows : List (List (List Char))) (hne : rows ≠ [])
    (hrow : ∀ r ∈ rows, r ≠ []) (hnl : ∀ r ∈ rows, ∀ f ∈ r, nlChar ∉ f) :
    parseCSV (renderCSV rows) = some rows := by
  unfold parseCSV renderCSV
  rw [splitChar_joinChar nlChar (rows.map renderRow) (by simp [hne])
    (fun l hl => by
      rw [List.mem_map] at hl
      obtain ⟨r, hr, rfl⟩ := hl
      exact nl_not_mem_renderRow r (hnl r hr))]
  exact parseRows_map_renderRow rows hrow

theorem importImages_exportImages (imgs : List (List Char))
    (hsemi : ∀ i ∈ imgs, ';' ∉ i) (hne : imgs ≠ [[]]) :
    importImages (exportImages imgs) = imgs := by
  cases imgs with
  | nil => simp [importImages, exportImages, joinChar]
  | cons x xs =>
    have hjoin : joinChar ';' (x :: xs) ≠ [] :=
      joinChar_ne_nil ';' (x :: xs) (by simp) hne
    unfold importImages exportImages
    rw [if_neg hjoin]
    exact splitChar_joinChar ';' (x :: xs) (by simp) hsemi

/-- C8 (amended): a CSV export followed by an import of the same file
reproduces the records — every field value round-trips as a string
through the (spec-modelled) quoted CSV codec, for whole files provided
the fields contain no newline — and the animal images field round-trips
as the same array through the `';'` join/split provided no image name
contains a semicolon and the array is not the single empty string. -/
theorem csv_roundtrip (row : List (List Char)) (rows : List (List (List Char)))
    (imgs : List (List Char)) (hrowne : row ≠ []) (hrows : rows ≠ [])
    (hrows2 : ∀ r ∈ rows, r ≠ []) (hnl : ∀ r ∈ rows, ∀ f ∈ r, nlChar ∉ f)
    (hsemi : ∀ i ∈ imgs, ';' ∉ i) (himgs : imgs ≠ [[]]) :
    parseRowFields (renderRow row) = some row ∧
    parseCSV (renderCSV rows) = some rows ∧
    importImages (exportImages imgs) = imgs :=
  ⟨parseRowFields_renderRow row hrowne,
   parseCSV_renderCSV rows hrows hrows2 hnl,
   importImages_exportImages imgs hsemi himgs⟩

/-- Witness for C8 (amended) at a concrete record: a two-field record
(one field containing a comma and a quote) and a two-image array both
round-trip. -/
theorem csv_roundtrip_witness :
    parseRowFields (renderRow [['G', '0', '0', '1'], ['a', ',', 'b']]) =
      some [['G', '0', '0', '1'], ['a', ',', 'b']] ∧
    parseCSV (renderCSV [[['G', '0', '0', '1']], [['G', '0', '0', '2']]]) =
      some [[['G', '0', '0', '1']], [['G', '0', '0', '2']]] ∧
    importImages (exportImages [['i', '1'], ['i', '2']]) = [['i', '1'], ['i', '2']] :=
  ⟨(csv_roundtrip [['G', '0', '0', '1'], ['a', ',', 'b']]
      [[['G', '0', '0', '1']], [['G', '0', '0', '2']]] [['i', '1'], ['i', '2']]
      (by decide) (by decide) (by decide) (by decide) (by decide) (by decide)).1,
   (csv_roundtrip [['G', '0', '0', '1'], ['a', ',', 'b']]
      [[['G', '0', '0', '1']], [['G', '0', '0', '2']]] [['i', '1'], ['i', '2']]
      (by decide) (by decide) (by decide) (by decide) (by decide) (by decide)).2.1,
   (csv_roundtrip [['G', '0', '0', '1'], ['a', ',', 'b']]
      [[['G', '0', '0', '1']], [['G', '0', '0', '2']]] [['i', '1'], ['i', '2']]
      (by decide) (by decide) (by decide) (by decide) (by decide) (by decide)).2.2⟩

/-- A FarmhouseUsers document, after `models/FarmhouseUsers.js`: one
record per admin identifier (`unique: true`), holding manager and
assistant identifier lists. -/
structure FhUsers where
  adminId : String
  managers : List String
  assistants : List String
  deriving Repr, DecidableEq

/-- The outcome reported by the FarmhouseUsers routes' message. -/
inductive FhUsersResult where
  | created
  | added
  | alreadyExists
  | removed
  | notFound
  deriving Repr, DecidableEq

/-- `POST /farmhouse-users/:adminId/assistant` from
`routes/farmhouseUsers.js`: create the record when the admin has none,
push the assistant when absent, report that it already exists
otherwise. -/
def addAssistant (st : List FhUsers) (adminId assistantId : String) :
    List FhUsers × FhUsersResult :=
  match st.find? (fun r => r.adminId == adminId) with
  | none => (st ++ [⟨adminId, [], [assistantId]⟩], .created)
  | some doc =>
    if doc.assistants.contains assistantId then (st, .alreadyExists)
    else
      (st.map (fun r =>
        if r.adminId == adminId then
          { r with assistants := r.assistants ++ [assistantId] }
        else r), .added)

/-- `POST /farmhouse-users/:adminId/manager`, symmetric. -/
def addManager (st : List FhUsers) (adminId managerId : String) :
    List FhUsers × FhUsersResult :=
  match st.find? (fun r => r.adminId == adminId) with
  | none => (st ++ [⟨adminId, [managerId], []⟩], .created)
  | some doc =>
    if doc.managers.contains managerId then (st, .alreadyExists)
    else
      (st.map (fun r =>
        if r.adminId == adminId then
          { r with managers := r.managers ++ [managerId] }
        else r), .added)

/-- `DELETE /farmhouse-users/:adminId/assistant/:assistantId`:
`indexOf` + `splice(idx, 1)` removes the first occurrence. -/
def removeAssistant (st : List FhUsers) (adminId assistantId : String) :
    List FhUsers × FhUsersResult :=
  match st.find? (fun r => r.adminId == adminId) with
  | none => (st, .notFound)
  | some doc =>
    if doc.assistants.contains assistantId then
      (st.map (fun r =>
        if r.adminId == adminId then
          { r with assistants := r.assistants.erase assistantId }
        else r), .removed)
    else (st, .notFound)

/-- `DELETE /farmhouse-users/:adminId/manager/:managerId`, symmetric. -/
def removeManager (st : List FhUsers) (adminId managerId : String) :
    List FhUsers × FhUsersResult :=
  match st.find? (fun r => r.adminId == adminId) with
  | none => (st, .notFound)
  | some doc =>
    if doc.managers.contains managerId then
      (st.map (fun r =>
        if r.adminId == adminId then
          { r with managers := r.managers.erase managerId }
        else r), .removed)
    else (st, .notFound)

/-- Invariant 1: at most one FarmhouseUsers record per admin identifier
(the schema's `unique: true` on `adminId`). -/
def uniqueAdminIds (st : List FhUsers) : Prop :=
  (st.map (fun r => r.adminId)).Nodup

/-- Invariant 2: no duplicate identifiers inside any record's lists. -/
def nodupMembers (st : List FhUsers) : Prop :=
  ∀ r ∈ st, r.managers.Nodup ∧ r.assistants.Nodup

/-- The assistants stored for an admin (empty when no record exists). -/
def assistantsOf (st : List FhUsers) (adminId : String) : List String :=
  match st.find? (fun r => r.adminId == adminId) with
  | none => []
  | some doc => doc.assistants

/-- The managers stored for an admin. -/
def managersOf (st : List FhUsers) (adminId : String) : List String :=
  match st.find? (fun r => r.adminId == adminId) with
  | none => []
  | some doc => doc.managers

theorem adminIds_map_update (st : List FhUsers) (g : FhUsers → FhUsers)
    (hg : ∀ r, (g r).adminId = r.adminId) (a : String) :
    (st.map (fun r => if r.adminId == a then g r else r)).map (fun r => r.adminId) =
      st.map (fun r => r.adminId) := by
  induction st with
  | nil => rfl
  | cons r rs ih =>
    simp only [List.map_cons]
    by_cases h : r.adminId == a
    · rw [if_pos h, hg r, ih]
    · rw [if_neg h, ih]

theorem find?_unique_eq (st : List FhUsers) (hU : uniqueAdminIds st) (a : String)
    (doc : FhUsers) (hf : st.find? (fun r => r.adminId == a) = some doc) :
    ∀ r ∈ st, r.adminId = a → r = doc := by
  intro r hr hra
  have hdoc_mem := List.mem_of_find?_eq_some hf
  have hdoc_admin := List.find?_some hf
  simp only [beq_iff_eq] at hdoc_admin
  exact List.inj_on_of_nodup_map hU hr hdoc_mem (by rw [hra, hdoc_admin])

theorem addAssistant_preserves (st : List FhUsers) (a x : String)
    (hU : uniqueAdminIds st) (hN : nodupMembers st) :
    uniqueAdminIds (addAssistant st a x).1 ∧ nodupMembers (addAssistant st a x).1 := by
  unfold addAssistant
  cases hf : st.find? (fun r => r.adminId == a) with
  | none =>
    rw [List.find?_eq_none] at hf
    constructor
    · unfold uniqueAdminIds at hU ⊢
      simp only [List.map_append, List.map_cons, List.map_nil]
      refine List.Nodup.append hU (by simp) ?_
      intro b hb hb2
      simp only [List.mem_singleton] at hb2
      subst hb2
      rw [List.mem_map] at hb
      obtain ⟨r, hr, hra⟩ := hb
      exact absurd (by simp [hra] : (r.adminId == b) = true) (by simpa using hf r hr)
    · intro r hr
      rcases List.mem_append.mp hr with hr | hr
      · exact hN r hr
      · simp only [List.mem_singleton] at hr
        subst hr
        exact ⟨List.nodup_nil, List.nodup_singleton x⟩
  | some doc =>
    by_cases hx : doc.assistants.contains x
    · simp only [hx, if_true]
      exact ⟨hU, hN⟩
    · simp only [hx, if_false, Bool.false_eq_true]
      constructor
      · unfold uniqueAdminIds
        rw [adminIds_map_update st
          (fun r => { r with assistants := r.assistants ++ [x] }) (fun r => rfl) a]
        exact hU
      · intro r' hr'
        rw [List.mem_map] at hr'
        obtain ⟨r, hr, rfl⟩ := hr'
        by_cases hra : r.adminId == a
        · rw [if_pos hra]
          refine ⟨(hN r hr).1, ?_⟩
          have hrd : r = doc := find?_unique_eq st hU a doc hf r hr (beq_iff_eq.mp hra)
          subst hrd
          have hxn : x ∉ r.assistants := by
            intro hmem
            exact hx (List.elem_iff.mpr hmem)
          refine List.Nodup.append (hN r hr).2 (List.nodup_singleton x) ?_
          intro b hb hb2
          simp only [List.mem_singleton] at hb2
          subst hb2
          exact hxn hb
        · rw [if_neg hra]
          exact hN r hr

theorem addManager_preserves (st : List FhUsers) (a x : String)
    (hU : uniqueAdminIds st) (hN : nodupMembers st) :
    uniqueAdminIds (addManager st a x).1 ∧ nodupMembers (addManager st a x).1 := by
  unfold addManager
  cases hf : st.find? (fun r => r.adminId == a) with
  | none =>
    rw [List.find?_eq_none] at hf
    constructor
    · unfold uniqueAdminIds at hU ⊢
      simp only [List.map_append, List.map_cons, List.map_nil]
      refine List.Nodup.append hU (by simp) ?_
      intro b hb hb2
      simp only [List.mem_singleton] at hb2
      subst hb2
      rw [List.mem_map] at hb
      obtain ⟨r, hr, hra⟩ := hb
      exact absurd (by simp [hra] : (r.adminId == b) = true) (by simpa using hf r hr)
    · intro r hr
      rcases List.mem_append.mp hr with hr | hr
      · exact hN r hr
      · simp only [List.mem_singleton] at hr
        subst hr
        exact ⟨List.nodup_singleton x, List.nodup_nil⟩
  | some doc =>
    by_cases hx : doc.managers.contains x
    · simp only [hx, if_true]
      exact ⟨hU, hN⟩
    · simp only [hx, if_false, Bool.false_eq_true]
      constructor
      · unfold uniqueAdminIds
        rw [adminIds_map_update st
          (fun r => { r with managers := r.managers ++ [x] }) (fun r => rfl) a]
        exact hU
      · intro r' hr'
        rw [List.mem_map] at hr'
        obtain ⟨r, hr, rfl⟩ := hr'
        by_cases hra : r.adminId == a
        · rw [if_pos hra]
          refine ⟨?_, (hN r hr).2⟩
          have hrd : r = doc := find?_unique_eq st hU a doc hf r hr (beq_iff_eq.mp hra)
          subst hrd
          have hxn : x ∉ r.managers := by
            intro hmem
            exact hx (List.elem_iff.mpr hmem)
          refine List.Nodup.append (hN r hr).1 (List.nodup_singleton x) ?_
          intro b hb hb2
          simp only [List.mem_singleton] at hb2
          subst hb2
          exact hxn hb
        · rw [if_neg hra]
          exact hN r hr

theorem removeAssistant_preserves (st : List FhUsers) (a x : String)
    (hU : uniqueAdminIds st) (hN : nodupMembers st) :
    uniqueAdminIds (removeAssistant st a x).1 ∧ nodupMembers (removeAssistant st a x).1 := by
  unfold removeAssistant
  cases hf : st.find? (fun r => r.adminId == a) with
  | none => exact ⟨hU, hN⟩
  | some doc =>
    by_cases hx : doc.assistants.contains x
    · simp only [hx, if_true]
      constructor
      · unfold uniqueAdminIds
        rw [adminIds_map_update st
          (fun r => { r with assistants := r.assistants.erase x }) (fun r => rfl) a]
        exact hU
      · intro r' hr'
        rw [List.mem_map] at hr'
        obtain ⟨r, hr, rfl⟩ := hr'
        by_cases hra : r.adminId == a
        · rw [if_pos hra]
          exact ⟨(hN r hr).1, List.Nodup.erase x (hN r hr).2⟩
        · rw [if_neg hra]
          exact hN r hr
    · simp only [hx, if_false, Bool.false_eq_true]
      exact ⟨hU, hN⟩

theorem removeManager_preserves (st : List FhUsers) (a x : String)
    (hU : uniqueAdminIds st) (hN : nodupMembers st) :
    uniqueAdminIds (removeManager st a x).1 ∧ nodupMembers (removeManager st a x).1 := by
  unfold removeManager
  cases hf : st.find? (fun r => r.adminId == a) with
  | none => exact ⟨hU, hN⟩
  | some doc =>
    by_cases hx : doc.managers.contains x
    · simp only [hx, if_true]
      constructor
      · unfold uniqueAdminIds
        rw [adminIds_map_update st
          (fun r => { r with managers := r.managers.erase x }) (fun r => rfl) a]
        exact hU
      · intro r' hr'
        rw [List.mem_map] at hr'
        obtain ⟨r, hr, rfl⟩ := hr'
        by_cases hra : r.adminId == a
        · rw [if_pos hra]
          exact ⟨List.Nodup.erase x (hN r hr).1, (hN r hr).2⟩
        · rw [if_neg hra]
          exact hN r hr
    · simp only [hx, if_false, Bool.false_eq_true]
      exact ⟨hU, hN⟩

theorem assistantsOf_none (st : List FhUsers) (a : String)
    (hf : st.find? (fun r => r.adminId == a) = none) : assistantsOf st a = [] := by
  unfold assistantsOf
  rw [hf]

theorem assistantsOf_some (st : List FhUsers) (a : String) (doc : FhUsers)
    (hf : st.find? (fun r => r.adminId == a) = some doc) :
    assistantsOf st a = doc.assistants := by
  unfold assistantsOf
  rw [hf]

theorem managersOf_none (st : List FhUsers) (a : String)
    (hf : st.find? (fun r => r.adminId == a) = none) : managersOf st a = [] := by
  unfold managersOf
  rw [hf]

theorem managersOf_some (st : List FhUsers) (a : String) (doc : FhUsers)
    (hf : st.find? (fun r => r.adminId == a) = some doc) :
    managersOf st a = doc.managers := by
  unfold managersOf
  rw [hf]

theorem addAssistant_already (st : List FhUsers) (a x : String)
    (hmem : (assistantsOf st a).contains x = true) :
    addAssistant st a x = (st, .alreadyExists) := by
  unfold addAssistant
  cases hf : st.find? (fun r => r.adminId == a) with
  | none =>
    rw [assistantsOf_none st a hf] at hmem
    simp [List.contains] at hmem
  | some doc =>
    rw [assistantsOf_some st a doc hf] at hmem
    simp only [hmem, if_true]

theorem addManager_already (st : List FhUsers) (a x : String)
    (hmem : (managersOf st a).contains x = true) :
    addManager st a x = (st, .alreadyExists) := by
  unfold addManager
  cases hf : st.find? (fun r => r.adminId == a) with
  | none =>
    rw [managersOf_none st a hf] at hmem
    simp [List.contains] at hmem
  | some doc =>
    rw [managersOf_some st a doc hf] at hmem
    simp only [hmem, if_true]

/-- C9: the four FarmhouseUsers mutations preserve both invariants —
at most one record per admin identifier, and duplicate-free manager and
assistant lists — and adding an identifier that is already present
leaves the state unchanged and reports that it already exists. -/
theorem farmhouseUsers_invariants (st : List FhUsers) (a x : String)
    (hU : uniqueAdminIds st) (hN : nodupMembers st) :
    (uniqueAdminIds (addAssistant st a x).1 ∧ nodupMembers (addAssistant st a x).1) ∧
    (uniqueAdminIds (addManager st a x).1 ∧ nodupMembers (addManager st a x).1) ∧
    (uniqueAdminIds (removeAssistant st a x).1 ∧ nodupMembers (removeAssistant st a x).1) ∧
    (uniqueAdminIds (removeManager st a x).1 ∧ nodupMembers (removeManager st a x).1) ∧
    ((assistantsOf st a).contains x = true → addAssistant st a x = (st, .alreadyExists)) ∧
    ((managersOf st a).contains x = true → addManager st a x = (st, .alreadyExists)) :=
  ⟨addAssistant_preserves st a x hU hN,
   addManager_preserves st a x hU hN,
   removeAssistant_preserves st a x hU hN,
   removeManager_preserves st a x hU hN,
   addAssistant_already st a x,
   addManager_already st a x⟩

/-- Witness for C9 at a concrete state: one record for admin "a1" with
assistant "s1"; re-adding "s1" reports that it already exists. -/
theorem farmhouseUsers_invariants_witness :
    uniqueAdminIds [⟨"a1", ["m1"], ["s1"]⟩] ∧
    nodupMembers [⟨"a1", ["m1"], ["s1"]⟩] ∧
    addAssistant [⟨"a1", ["m1"], ["s1"]⟩] "a1" "s1" =
      ([⟨"a1", ["m1"], ["s1"]⟩], .alreadyExists) ∧
    uniqueAdminIds (addAssistant [⟨"a1", ["m1"], ["s1"]⟩] "a1" "s2").1 :=
  ⟨by unfold uniqueAdminIds; decide, by unfold nodupMembers; decide,
   (farmhouseUsers_invariants [⟨"a1", ["m1"], ["s1"]⟩] "a1" "s1"
      (by unfold uniqueAdminIds; decide) (by unfold nodupMembers; decide)).2.2.2.2.1
      (by decide),
   (farmhouseUsers_invariants [⟨"a1", ["m1"], ["s1"]⟩] "a1" "s2"
      (by unfold uniqueAdminIds; decide) (by unfold nodupMembers; decide)).1.1⟩

/-- Modelled from the spec: `middleware/admin.js` is not among the
source files; the spec describes the gating functions as equality
checks of the decoded role, in the shape of the manager middleware that
is in the sources. -/
def adminCheck (role : String) : Bool := role == "admin"

/-- A JavaScript value in middleware position: a function, or the
falsy `undefined`. -/
inductive MwValue where
  | fn (check : String → Bool)
  | undef

/-- JS truthiness of a middleware-position value: functions are truthy,
`undefined` is falsy. -/
def truthyMw : MwValue → Bool
  | .fn _ => true
  | .undef => false

/-- Evaluating a JS expression yields a value or a thrown error. -/
def MwEval : Type := Except String MwValue

/-- JS `||`: evaluate the left operand; when it is truthy return it
without ever forcing the right operand. -/
def jsOrElse (a : MwEval) (b : Unit → MwEval) : MwEval :=
  match a with
  | .ok v => if truthyMw v then .ok v else b ()
  | .error e => .error e

/-- The left operand of `admin || superadmin` in `routes/farmhouse.js`:
the imported admin middleware function. -/
def adminMwValue : MwEval := .ok (.fn adminCheck)

/-- The right operand: `superadmin` is never imported in
`routes/farmhouse.js`, so evaluating the identifier would throw a
ReferenceError — but it is a thunk that JS only forces when the left
operand is falsy. -/
def superadminRef : Unit → MwEval :=
  fun _ => .error "ReferenceError: superadmin is not defined"

/-- The handler of `DELETE /farmhouse/:id`: 404 when no farmhouse has
the identifier, 403 when the requester is not the farmhouse's recorded
admin, otherwise delete it. -/
def deleteFarmhouseHandler (userId fhId : String) (db : List Farmhouse) :
    Nat × List Farmhouse :=
  match db.find? (fun fh => fh.oid == fhId) with
  | none => (404, db)
  | some fh =>
    if fh.admin != userId then (403, db)
    else (200, db.eraseP (fun fh2 => fh2.oid == fhId))

/-- A route guarded by a role-check middleware. -/
def runGated (check : String → Bool)
    (handler : String → String → List Farmhouse → Nat × List Farmhouse)
    (role userId fhId : String) (db : List Farmhouse) : Nat × List Farmhouse :=
  if check role then handler userId fhId db else (403, db)

/-- `DELETE /farmhouse/:id` as mounted: the middleware expression
`admin || superadmin` is evaluated once at module load; were it to
throw, the router could not be built (the 500 arm is unreachable). -/
def deleteFarmhouseRoute (role userId fhId : String) (db : List Farmhouse) :
    Nat × List Farmhouse :=
  match jsOrElse adminMwValue superadminRef with
  | .ok (.fn check) => runGated check deleteFarmhouseHandler role userId fhId db
  | _ => (500, db)

/-- C10: `admin || superadmin` short-circuits to the admin middleware —
the second operand is never evaluated for any thunk, so the route
behaves exactly as the chain [auth, admin] followed by the handler's
own is-the-farmhouse-admin check, and a request the admin middleware
rejects is rejected with 403 regardless of any superadmin status. -/
theorem delete_farmhouse_gate (role userId fhId : String) (db : List Farmhouse) :
    jsOrElse adminMwValue superadminRef = adminMwValue ∧
    (∀ b : Unit → MwEval, jsOrElse adminMwValue b = adminMwValue) ∧
    deleteFarmhouseRoute role userId fhId db =
      runGated adminCheck deleteFarmhouseHandler role userId fhId db ∧
    (adminCheck role = false → deleteFarmhouseRoute role userId fhId db = (403, db)) := by
  refine ⟨rfl, fun b => rfl, rfl, ?_⟩
  intro hrole
  unfold deleteFarmhouseRoute jsOrElse adminMwValue runGated
  simp [truthyMw, hrole]

/-- Witness for C10: a super_admin token is still rejected with 403 by
the delete route, because only the admin middleware ever runs. -/
theorem delete_farmhouse_gate_witness :
    adminCheck "super_admin" = false ∧
    deleteFarmhouseRoute "super_admin" "u1" "f1"
        [⟨"f1", "FARM-1", "Farm", "m1", "a1", [], "Lahore"⟩] =
      (403, [⟨"f1", "FARM-1", "Farm", "m1", "a1", [], "Lahore"⟩]) :=
  ⟨by decide,
   (delete_farmhouse_gate "super_admin" "u1" "f1"
      [⟨"f1", "FARM-1", "Farm", "m1", "a1", [], "Lahore"⟩]).2.2.2 (by decide)⟩

end GrainHero
